import Mathlib

/-!
# Verification of `TrainingBatchLoop` (pytorch_lightning/loops/batch/training_batch_loop.py)

Shallow embedding of the control logic of the training-batch loop: optimizer
selection by frequency, the per-split optimizer loop with restart handling,
closure construction (step / backward / zero-grad functions), the training
step's loss scaling and hidden-state threading, the optimizer step's
LBFGS/native-AMP compatibility check, the backward pass's gradient-norm
tracking and clipping, the running-loss tracker, and the top-level `run`
entry point's empty-batch short-circuit.

Python integers are modelled as `Nat`/`Int`; operations that would raise in
Python (modulo by zero, indexing out of range, `None % int`) are modelled by
`Option`-valued results.  Tensors are modelled by their rational value
together with a flag recording whether they are attached to the autograd
graph.
-/

namespace TrainingBatchLoop

/-- The mixed-precision backend (`pytorch_lightning.utilities.AMPType`). -/
inductive AMPType where
  | NATIVE
  | APEX
deriving DecidableEq, Repr

/-- An optimizer, identified by an id, with a flag recording whether it is an
instance of `torch.optim.LBFGS` (the only type inspection `_optimizer_step`
performs). -/
structure Optimizer where
  id : Nat
  lbfgs : Bool
deriving DecidableEq, Repr

/-- The slice of trainer state that the `TrainingBatchLoop` methods read. -/
structure TrainerCfg where
  optimizers : List Optimizer
  optimizer_frequencies : List Nat
  accumulate_grad_batches : Nat
  automatic_optimization : Bool
  track_grad_norm : Int
  log_every_n_steps : Nat
  global_step : Nat
  amp_backend : AMPType
deriving Repr

/-- `np.cumsum` on a list of naturals, starting from partial sum `s`. -/
def cumsumFrom (s : Nat) : List Nat → List Nat
  | [] => []
  | x :: xs => (s + x) :: cumsumFrom (s + x) xs

/-- `np.cumsum` on a list of naturals. -/
def cumsum (l : List Nat) : List Nat := cumsumFrom 0 l

/-- The index of the first `true` in a boolean list, if any. -/
def findFirstTrue : List Bool → Option Nat
  | [] => none
  | b :: rest => if b then some 0 else (findFirstTrue rest).map (· + 1)

/-- `np.argmax` on a boolean array: the index of the first `true`, or `0` when
the array is all-`false` (or empty). -/
def npArgmaxBool (l : List Bool) : Nat := (findFirstTrue l).getD 0

/-- `TrainingBatchLoop.get_active_optimizers(batch_idx)`.

If no optimizer frequencies are configured it returns `enumerate(optimizers)`.
Otherwise it computes the frequency cumsum, `period = cumsum[-1]`,
`position = batch_idx % period`, and returns the single pair at
`np.argmax(cumsum > position)`.  `none` models a Python exception: a `None`
batch index used in `%` (TypeError), `% 0` (ZeroDivisionError), or an
out-of-range optimizer index (IndexError). -/
def get_active_optimizers (t : TrainerCfg) (batch_idx : Option Nat) :
    Option (List (Nat × Optimizer)) :=
  if t.optimizer_frequencies.isEmpty then
    some t.optimizers.enum
  else
    match batch_idx with
    | none => none
    | some b =>
      let cs := cumsum t.optimizer_frequencies
      let optimizers_loop_length := cs.getLastD 0
      if optimizers_loop_length = 0 then none
      else
        let current_place_in_loop := b % optimizers_loop_length
        let opt_idx := npArgmaxBool (cs.map (fun c => decide (current_place_in_loop < c)))
        match t.optimizers.get? opt_idx with
        | some o => some [(opt_idx, o)]
        | none => none

/-- The optimizer loop of `TrainingBatchLoop.advance` under automatic
optimization, projected onto which optimizer indices get executed.  `prog` is
the current `optim_progress.optimizer_idx`; an index is skipped when
`restarting` holds and the index is strictly below `prog`; otherwise
`optim_progress.optimizer_idx` is set to the index and the optimization runs. -/
def advanceOptLoop (restarting : Bool) : Nat → List Nat → List Nat
  | _, [] => []
  | prog, i :: rest =>
    if restarting && decide (i < prog) then advanceOptLoop restarting prog rest
    else i :: advanceOptLoop restarting i rest

/-- `TrainingBatchLoop._make_zero_grad_fn`: the zero-grad function is returned
(`some`) iff backward is not skipped, automatic optimization is on, and
`batch_idx % accumulate_grad_batches == 0`. -/
def _make_zero_grad_fn (t : TrainerCfg) (skip_backward : Bool) (batch_idx : Nat) :
    Option Unit :=
  let is_first_batch_to_accumulate := batch_idx % t.accumulate_grad_batches == 0
  if !skip_backward && t.automatic_optimization && is_first_batch_to_accumulate then
    some ()
  else
    none

/-- `TrainingBatchLoop._make_backward_fn`: the backward function is returned
(`some`) iff backward is not skipped and automatic optimization is on. -/
def _make_backward_fn (t : TrainerCfg) (skip_backward : Bool) : Option Unit :=
  if !skip_backward && t.automatic_optimization then some () else none

/-- The closure assembled by `_make_closure`: the step function is always
present; the backward and zero-grad functions are optional. -/
structure ClosureParts where
  has_step_fn : Bool
  backward_fn : Option Unit
  zero_grad_fn : Option Unit
deriving DecidableEq, Repr

/-- `TrainingBatchLoop._make_closure`, projected onto which of the three
functions are present in the constructed `Closure`. -/
def _make_closure (t : TrainerCfg) (skip_backward : Bool) (batch_idx : Nat) :
    ClosureParts :=
  { has_step_fn := true
    backward_fn := _make_backward_fn t skip_backward
    zero_grad_fn := _make_zero_grad_fn t skip_backward batch_idx }

/-- A tensor, modelled by its (rational) value and a flag recording whether it
is attached to the autograd graph. -/
structure Tensor where
  val : ℚ
  on_graph : Bool
deriving DecidableEq, Repr

/-- `Tensor.detach()`: same value, removed from the autograd graph. -/
def Tensor.detach (x : Tensor) : Tensor := ⟨x.val, false⟩

/-- `Tensor.clone()`: a copy with the same value and graph attachment. -/
def Tensor.clone (x : Tensor) : Tensor := ⟨x.val, x.on_graph⟩

/-- Division of a tensor by a Python integer (graph attachment preserved). -/
def Tensor.divNat (x : Tensor) (n : Nat) : Tensor := ⟨x.val / (n : ℚ), x.on_graph⟩

/-- The normalized result collection produced by
`_process_training_step_output`, carrying the loss to minimize. -/
structure ResultCollection where
  minimize : Tensor
deriving DecidableEq, Repr

/-- The `AttributeDict` returned by `_training_step` on the non-skip path. -/
structure StepOut where
  closure_loss : Option Tensor
  loss : Option Tensor
  result_collection : ResultCollection
deriving DecidableEq, Repr

/-- `TrainingBatchLoop._training_step`, starting at the point where
`_process_training_step_output` has produced `processed = (result_collection,
hiddens)`: the stored hidden state is overwritten with `processed.2` first;
then, if the result collection is absent, the step returns `none` (skip);
otherwise, under automatic optimization, `closure_loss` is the minimize loss
divided by `accumulate_grad_batches` and `loss` is its detached clone.  The
first component of the result is the new value of `self._hiddens`. -/
def _training_step (t : TrainerCfg) (hiddens_before : Option Tensor)
    (processed : Option ResultCollection × Option Tensor) :
    Option Tensor × Option StepOut :=
  let _ := hiddens_before
  let new_hiddens := processed.2
  match processed.1 with
  | none => (new_hiddens, none)
  | some result_collection =>
    if t.automatic_optimization then
      let closure_loss := result_collection.minimize.divNat t.accumulate_grad_batches
      let loss := closure_loss.detach.clone
      (new_hiddens, some ⟨some closure_loss, some loss, result_collection⟩)
    else
      (new_hiddens, some ⟨none, none, result_collection⟩)

/-- Progress counters for the optimizer step
(`optim_progress.optimizer.step`). -/
structure StepProgress where
  ready : Nat
  completed : Nat
deriving DecidableEq, Repr

/-- The outcome of `_optimizer_step`: the step progress counters, whether the
model's `optimizer_step` hook was invoked, and the raised
`MisconfigurationException` message if any. -/
structure OptStepOutcome where
  progress : StepProgress
  hook_called : Bool
  error : Option String
deriving DecidableEq, Repr

/-- `TrainingBatchLoop._optimizer_step`: raises a
`MisconfigurationException` when the optimizer is an LBFGS instance and the
AMP backend is the native one, before incrementing the ready counter and
before calling the model's `optimizer_step` hook; otherwise increments
`ready`, calls the hook, and increments `completed`. -/
def _optimizer_step (t : TrainerCfg) (optimizer : Optimizer) (s : StepProgress) :
    OptStepOutcome :=
  let is_lbfgs := optimizer.lbfgs
  let using_native_amp := t.amp_backend == AMPType.NATIVE
  if using_native_amp && is_lbfgs then
    { progress := s
      hook_called := false
      error := some "native PyTorch amp and lbfgs are not compatible." }
  else
    let s1 : StepProgress := { s with ready := s.ready + 1 }
    let s2 : StepProgress := { s1 with completed := s1.completed + 1 }
    { progress := s2, hook_called := true, error := none }

/-- The observable effects of one `TrainingBatchLoop.backward` call. -/
structure BackwardEffects where
  backward_called : Bool
  norms_computed : Bool
  grad_norm_dict : List (String × ℚ)
  clipped : Bool
  logged_norms : Bool
deriving DecidableEq, Repr

/-- `TrainingBatchLoop._track_and_norm_grad` followed by the logging in
`backward`: `can_log` iff `(global_step + 1) % log_every_n_steps == 0`,
`should_track` iff `float(track_grad_norm) > 0`; the norm dict is computed
by the external `grad_norm` collaborator (`norms`) only when both hold, the
backend clips unconditionally, and the dict is logged iff non-empty. -/
def _track_and_norm_grad (t : TrainerCfg) (norms : List (String × ℚ)) :
    List (String × ℚ) × Bool :=
  let can_log := (t.global_step + 1) % t.log_every_n_steps == 0
  let should_track := decide (0 < t.track_grad_norm)
  let grad_norm_dict := if should_track && can_log then norms else []
  (grad_norm_dict, should_track && can_log)

/-- `TrainingBatchLoop.backward`: delegates the gradient computation to the
backend, and when not inside an accumulation window additionally tracks and
clips gradients and logs the norm dict if non-empty.  `norms` is the dict the
external `grad_norm` collaborator would return. -/
def backwardRun (t : TrainerCfg) (should_accumulate : Bool)
    (norms : List (String × ℚ)) : BackwardEffects :=
  if should_accumulate then
    { backward_called := true
      norms_computed := false
      grad_norm_dict := []
      clipped := false
      logged_norms := false }
  else
    let tracked := _track_and_norm_grad t norms
    { backward_called := true
      norms_computed := tracked.2
      grad_norm_dict := tracked.1
      clipped := true
      logged_norms := !tracked.1.isEmpty }

/-- Modelled from the spec: `TensorRunningAccum` (from
`pytorch_lightning.trainer.supporters`, not part of the sources) as used for
`running_loss` — a fixed-capacity sliding window appended to FIFO, evicting
the oldest element on overflow. -/
def windowAppend (cap : Nat) (w : List ℚ) (x : ℚ) : List ℚ :=
  if w.length < cap then w ++ [x] else w.drop 1 ++ [x]

/-- Modelled from the spec: the mean of the `accumulated_loss` buffer, which
is `None` exactly when the buffer is empty. -/
def listMean (l : List ℚ) : Option ℚ :=
  if l.isEmpty then none else some (l.sum / (l.length : ℚ))

/-- The running-loss tracker state: the accumulation buffer
(`accumulated_loss`) and the capacity-20 sliding window (`running_loss`). -/
structure LossTracker where
  accumulated_loss : List ℚ
  running_loss : List ℚ
deriving DecidableEq, Repr

/-- `TrainingBatchLoop._update_running_loss`: appends `current_loss` to the
accumulation buffer under automatic optimization only; if the buffer mean is
defined (buffer non-empty) pushes `mean * accumulate_grad_batches` into the
sliding window; resets the buffer unconditionally. -/
def _update_running_loss (t : TrainerCfg) (s : LossTracker) (current_loss : ℚ) :
    LossTracker :=
  let buf :=
    if t.automatic_optimization then s.accumulated_loss ++ [current_loss]
    else s.accumulated_loss
  match listMean buf with
  | some m =>
    { accumulated_loss := []
      running_loss := windowAppend 20 s.running_loss (m * (t.accumulate_grad_batches : ℚ)) }
  | none =>
    { accumulated_loss := []
      running_loss := s.running_loss }

/-- The observable outcome of one `TrainingBatchLoop.run` call: whether the
`None`-batch warning fired, which trainer hooks were called, the returned
`signal`, and the returned `training_step_output` (absent for abort signals). -/
structure RunResult where
  warned : Bool
  hooks_called : List String
  signal : Int
  training_step_output : Option (List (List ResultCollection))
  splits_processed : Nat
deriving DecidableEq, Repr

/-- `TrainingBatchLoop.run(batch, batch_idx)`: a `None` batch warns and
returns `signal=0` with output `[[]]`, calling no hooks and processing no
splits.  Otherwise the `on_batch_start` and `on_train_batch_start` hooks run
in order, either may abort with response `-1` (returning `signal=-1`), and on
proceed the split loop runs (its outputs and split count are the external
parameters `batchOutputs` and `numSplits`). -/
def run (batch : Option (List ℚ)) (batch_idx : Nat)
    (onBatchStartResp onTrainBatchStartResp : Int)
    (batchOutputs : List (List ResultCollection)) (numSplits : Nat) : RunResult :=
  let _ := batch_idx
  match batch with
  | none =>
    { warned := true
      hooks_called := []
      signal := 0
      training_step_output := some [[]]
      splits_processed := 0 }
  | some _ =>
    if onBatchStartResp == -1 then
      { warned := false
        hooks_called := ["on_batch_start"]
        signal := -1
        training_step_output := none
        splits_processed := 0 }
    else if onTrainBatchStartResp == -1 then
      { warned := false
        hooks_called := ["on_batch_start", "on_train_batch_start"]
        signal := -1
        training_step_output := none
        splits_processed := 0 }
    else
      { warned := false
        hooks_called := ["on_batch_start", "on_train_batch_start"]
        signal := 0
        training_step_output := some batchOutputs
        splits_processed := numSplits }

/-! ## Sample configurations used by witnesses -/

/-- A sample trainer configuration: two optimizers, no frequencies,
accumulation window 2, automatic optimization, norm tracking with p = 2,
logging every step. -/
def cfgA : TrainerCfg :=
  { optimizers := [⟨0, false⟩, ⟨1, false⟩]
    optimizer_frequencies := []
    accumulate_grad_batches := 2
    automatic_optimization := true
    track_grad_norm := 2
    log_every_n_steps := 1
    global_step := 0
    amp_backend := AMPType.NATIVE }

/-- A sample trainer configuration with frequencies `[2, 1]` for its two
optimizers. -/
def cfgFreq : TrainerCfg :=
  { optimizers := [⟨0, false⟩, ⟨1, false⟩]
    optimizer_frequencies := [2, 1]
    accumulate_grad_batches := 1
    automatic_optimization := true
    track_grad_norm := -1
    log_every_n_steps := 50
    global_step := 0
    amp_backend := AMPType.APEX }

/-- The sequence of selected optimizer indices over batch indices
`0 .. n-1` (the head index of each `get_active_optimizers` result). -/
def activeIdxSeq (t : TrainerCfg) (n : Nat) : List (Option Nat) :=
  (List.range n).map fun b =>
    (get_active_optimizers t (some b)).bind fun l => l.head?.map Prod.fst

/-! ## C9: no frequencies configured -/

/-- C9: for every batch index, including an omitted (`None`) one, when no
optimizer frequencies are configured, `get_active_optimizers` returns all
configured optimizers paired with their indices, in index order, each exactly
once (it is exactly `enumerate(optimizers)`). -/
theorem claim_C9_no_frequencies (t : TrainerCfg) (batch_idx : Option Nat)
    (hfreq : t.optimizer_frequencies = []) :
    get_active_optimizers t batch_idx = some t.optimizers.enum ∧
    t.optimizers.enum.map Prod.snd = t.optimizers ∧
    t.optimizers.enum.map Prod.fst = List.range t.optimizers.length := by
  refine ⟨?_, List.enum_map_snd _, List.enum_map_fst _⟩
  simp [get_active_optimizers, hfreq]

/-- Witness for C9 at the sample configuration with a `None` batch index. -/
theorem claim_C9_no_frequencies_witness :
    get_active_optimizers cfgA none = some cfgA.optimizers.enum ∧
    cfgA.optimizers.enum.map Prod.snd = cfgA.optimizers ∧
    cfgA.optimizers.enum.map Prod.fst = List.range cfgA.optimizers.length :=
  claim_C9_no_frequencies cfgA none (by decide)

/-! ## C3: presence of the zero-grad function -/

/-- C3: `_make_closure` produces a closure whose zero-grad function is present
iff `batch_idx % accumulate_grad_batches == 0`, automatic optimization is
enabled, and backward is not flagged to be skipped; when any of these fails
the zero-grad function is `None`. -/
theorem claim_C3_zero_grad_fn (t : TrainerCfg) (skip_backward : Bool) (batch_idx : Nat)
    (hacc : 0 < t.accumulate_grad_batches) :
    ((_make_closure t skip_backward batch_idx).zero_grad_fn.isSome = true ↔
      (batch_idx % t.accumulate_grad_batches = 0 ∧ t.automatic_optimization = true ∧
        skip_backward = false)) ∧
    (¬(batch_idx % t.accumulate_grad_batches = 0 ∧ t.automatic_optimization = true ∧
        skip_backward = false) →
      (_make_closure t skip_backward batch_idx).zero_grad_fn = none) := by
  have _ := hacc
  constructor
  · cases skip_backward <;> cases hauto : t.automatic_optimization <;>
      simp [_make_closure, _make_zero_grad_fn, hauto]
  · intro hnot
    cases hz : (_make_closure t skip_backward batch_idx).zero_grad_fn with
    | none => rfl
    | some u =>
      exfalso
      apply hnot
      have hs : (_make_closure t skip_backward batch_idx).zero_grad_fn.isSome = true := by
        rw [hz]; rfl
      revert hs
      cases skip_backward <;> cases hauto : t.automatic_optimization <;>
        simp [_make_closure, _make_zero_grad_fn, hauto]

/-- Witness for C3: accumulation window 2, automatic optimization, backward
not skipped, batch index 4 — the zero-grad function is present. -/
theorem claim_C3_zero_grad_fn_witness :
    (_make_closure cfgA false 4).zero_grad_fn.isSome = true :=
  (claim_C3_zero_grad_fn cfgA false 4 (by decide)).1.mpr (by decide)

/-! ## C6: LBFGS + native AMP misconfiguration -/

/-- C6: when the optimizer is an LBFGS instance and the mixed-precision
backend is the native AMP backend, `_optimizer_step` raises a
`MisconfigurationException` before any stepping side effect: the step-ready
counter is unchanged and the model's `optimizer_step` hook is never invoked. -/
theorem claim_C6_lbfgs_native_amp (t : TrainerCfg) (optimizer : Optimizer)
    (s : StepProgress) (hlbfgs : optimizer.lbfgs = true)
    (hamp : t.amp_backend = AMPType.NATIVE) :
    (_optimizer_step t optimizer s).error.isSome = true ∧
    (_optimizer_step t optimizer s).progress = s ∧
    (_optimizer_step t optimizer s).hook_called = false := by
  simp [_optimizer_step, hlbfgs, hamp]

/-- Witness for C6: an LBFGS optimizer under the native AMP backend with both
step counters at 0. -/
theorem claim_C6_lbfgs_native_amp_witness :
    (_optimizer_step cfgA ⟨0, true⟩ ⟨0, 0⟩).error.isSome = true ∧
    (_optimizer_step cfgA ⟨0, true⟩ ⟨0, 0⟩).progress = ⟨0, 0⟩ ∧
    (_optimizer_step cfgA ⟨0, true⟩ ⟨0, 0⟩).hook_called = false :=
  claim_C6_lbfgs_native_amp cfgA ⟨0, true⟩ ⟨0, 0⟩ (by decide) (by decide)

/-! ## C7: run with a `None` batch -/

/-- C7: for every batch index, `run(None, batch_idx)` emits the warning and
returns signal 0 with the empty nested output `[[]]` (a single empty inner
sequence regardless of how many optimizers are configured), calling no hooks
and processing no splits. -/
theorem claim_C7_run_none_batch (batch_idx : Nat)
    (onBatchStartResp onTrainBatchStartResp : Int)
    (batchOutputs : List (List ResultCollection)) (numSplits : Nat) :
    run none batch_idx onBatchStartResp onTrainBatchStartResp batchOutputs numSplits =
      { warned := true
        hooks_called := []
        signal := 0
        training_step_output := some [[]]
        splits_processed := 0 } := rfl

/-! ## C8: loss scaling and the detached display loss -/

/-- C8: under automatic optimization, when a result collection is produced,
the closure loss fed to backward is the raw minimize loss divided by
`accumulate_grad_batches`, and the returned display loss is its detached
clone: equal in value, not attached to the autograd graph. -/
theorem claim_C8_loss_scaling (t : TrainerCfg) (hiddens_before hid : Option Tensor)
    (rc : ResultCollection) (hauto : t.automatic_optimization = true)
    (hacc : 0 < t.accumulate_grad_batches) :
    (_training_step t hiddens_before (some rc, hid)).2 =
      some ⟨some (rc.minimize.divNat t.accumulate_grad_batches),
            some (rc.minimize.divNat t.accumulate_grad_batches).detach.clone, rc⟩ ∧
    (rc.minimize.divNat t.accumulate_grad_batches).val =
      rc.minimize.val / (t.accumulate_grad_batches : ℚ) ∧
    (rc.minimize.divNat t.accumulate_grad_batches).detach.clone.val =
      (rc.minimize.divNat t.accumulate_grad_batches).val ∧
    (rc.minimize.divNat t.accumulate_grad_batches).detach.clone.on_graph = false := by
  have _ := hacc
  refine ⟨?_, rfl, rfl, rfl⟩
  simp [_training_step, hauto]

/-- Witness for C8: minimize loss 3 on the graph, accumulation window 2 —
closure loss 3/2 (still on the graph), display loss 3/2 off the graph. -/
theorem claim_C8_loss_scaling_witness :
    (_training_step cfgA none (some ⟨⟨3, true⟩⟩, none)).2 =
      some ⟨some ⟨3 / 2, true⟩, some ⟨3 / 2, false⟩, ⟨⟨3, true⟩⟩⟩ := by
  have h := (claim_C8_loss_scaling cfgA none none ⟨⟨3, true⟩⟩ (by decide) (by decide)).1
  rw [h]
  rfl

/-! ## C10: hidden state is updated before the skip check -/

/-- C10: `_training_step` overwrites the stored hidden state with the value
extracted from the processed step output before the skip check, so even when
the result collection is absent and the step returns the skip signal
(`None`), the hidden state seen by the next split is the new one. -/
theorem claim_C10_hiddens_updated (t : TrainerCfg) (hiddens_before : Option Tensor)
    (processed : Option ResultCollection × Option Tensor) :
    (_training_step t hiddens_before processed).1 = processed.2 ∧
    (processed.1 = none → (_training_step t hiddens_before processed).2 = none) := by
  obtain ⟨orc, hid⟩ := processed
  cases orc with
  | none => exact ⟨rfl, fun _ => rfl⟩
  | some rc =>
    refine ⟨?_, fun h => by cases h⟩
    by_cases hauto : t.automatic_optimization = true <;>
      simp [_training_step, hauto]

/-- Witness for C10: previous hidden state absent, processed output carries no
result collection but a new hidden tensor of value 7 — the step returns the
skip signal yet the stored hidden state becomes the new tensor. -/
theorem claim_C10_hiddens_updated_witness :
    (_training_step cfgA none (none, some ⟨7, false⟩)).1 = some ⟨7, false⟩ ∧
    (_training_step cfgA none (none, some ⟨7, false⟩)).2 = none :=
  ⟨(claim_C10_hiddens_updated cfgA none (none, some ⟨7, false⟩)).1,
   (claim_C10_hiddens_updated cfgA none (none, some ⟨7, false⟩)).2 rfl⟩

/-! ## C4: the running-loss tracker -/

/-- The contents of the accumulation buffer after `_update_running_loss`'s
automatic-optimization-only append of the current loss. -/
def postAppendBuf (t : TrainerCfg) (s : LossTracker) (x : ℚ) : List ℚ :=
  if t.automatic_optimization then s.accumulated_loss ++ [x] else s.accumulated_loss

/-- C4: after `_update_running_loss`, the accumulation buffer is always empty;
if the buffer was non-empty after the automatic-optimization-only append, its
mean times `accumulate_grad_batches` was pushed into the capacity-20 sliding
window; if it was empty, the window is untouched. -/
theorem claim_C4_running_loss (t : TrainerCfg) (s : LossTracker) (x : ℚ) :
    (_update_running_loss t s x).accumulated_loss = [] ∧
    (postAppendBuf t s x ≠ [] →
      (_update_running_loss t s x).running_loss =
        windowAppend 20 s.running_loss
          ((postAppendBuf t s x).sum / ((postAppendBuf t s x).length : ℚ) *
            (t.accumulate_grad_batches : ℚ))) ∧
    (postAppendBuf t s x = [] →
      (_update_running_loss t s x).running_loss = s.running_loss) := by
  unfold _update_running_loss postAppendBuf
  cases hauto : t.automatic_optimization
  · cases hbuf : s.accumulated_loss with
    | nil => simp [hbuf, listMean]
    | cons a l => simp [hbuf, listMean]
  · cases hbuf : s.accumulated_loss with
    | nil => simp [hbuf, listMean]
    | cons a l => simp [hbuf, listMean]

/-- Witness for C4: buffer `[1]`, window `[5]`, new loss `3` under automatic
optimization with accumulation window 2 — buffer mean 2 is scaled to 4 and
pushed, and the buffer ends empty. -/
theorem claim_C4_running_loss_witness :
    (_update_running_loss cfgA ⟨[1], [5]⟩ 3).accumulated_loss = [] ∧
    (_update_running_loss cfgA ⟨[1], [5]⟩ 3).running_loss =
      windowAppend 20 [5]
        ((postAppendBuf cfgA ⟨[1], [5]⟩ 3).sum /
          ((postAppendBuf cfgA ⟨[1], [5]⟩ 3).length : ℚ) *
          (cfgA.accumulate_grad_batches : ℚ)) :=
  ⟨(claim_C4_running_loss cfgA ⟨[1], [5]⟩ 3).1,
   (claim_C4_running_loss cfgA ⟨[1], [5]⟩ 3).2.1 (by decide)⟩

/-! ## C5: gradient tracking, clipping and logging in `backward` -/

/-- C5: in `backward`, when not inside an accumulation window, gradient norms
are computed exactly when norm tracking is enabled and the global step count
(the 1-based count of the step being completed, `global_step + 1`) is a
multiple of the logging interval; gradients are then clipped via the backend,
and the norm dict is logged iff it is non-empty. -/
theorem claim_C5_backward_norms (t : TrainerCfg) (norms : List (String × ℚ))
    (hlog : 0 < t.log_every_n_steps) :
    ((backwardRun t false norms).norms_computed = true ↔
      0 < t.track_grad_norm ∧ (t.global_step + 1) % t.log_every_n_steps = 0) ∧
    (backwardRun t false norms).clipped = true ∧
    ((backwardRun t false norms).logged_norms = true ↔
      (backwardRun t false norms).grad_norm_dict ≠ []) ∧
    ((backwardRun t false norms).norms_computed = false →
      (backwardRun t false norms).grad_norm_dict = []) := by
  have _ := hlog
  refine ⟨?_, rfl, ?_, ?_⟩
  · simp [backwardRun, _track_and_norm_grad]
  · simp [backwardRun]
  · intro h
    by_cases htc : (decide (0 < t.track_grad_norm) &&
        ((t.global_step + 1) % t.log_every_n_steps == 0)) = true
    · exfalso
      simp [backwardRun, _track_and_norm_grad, htc] at h
    · simp [backwardRun, _track_and_norm_grad, htc]

/-- Witness for C5: tracking at p-norm 2, logging interval 1, global step 0,
a one-entry norm dict — norms are computed, gradients clipped, the dict
logged. -/
theorem claim_C5_backward_norms_witness :
    (backwardRun cfgA false [("grad_2.0_norm_total", 5)]).norms_computed = true ∧
    (backwardRun cfgA false [("grad_2.0_norm_total", 5)]).clipped = true ∧
    (backwardRun cfgA false [("grad_2.0_norm_total", 5)]).logged_norms = true := by
  have h := claim_C5_backward_norms cfgA [("grad_2.0_norm_total", 5)] (by decide)
  exact ⟨h.1.mpr (by decide), h.2.1, h.2.2.1.mpr (by decide)⟩

/-! ## C2: restart handling in the optimizer loop of `advance` -/

/-- When every index in the list is at least the recorded progress value and
the list is strictly increasing, the restarting loop skips nothing. -/
theorem advanceOptLoop_no_skip (prog : Nat) (l : List Nat)
    (hge : ∀ x ∈ l, prog ≤ x) (hs : l.Pairwise (· < ·)) :
    advanceOptLoop true prog l = l := by
  induction l generalizing prog with
  | nil => rfl
  | cons i rest ih =>
    obtain ⟨hlt, hrest⟩ := List.pairwise_cons.mp hs
    have hip : prog ≤ i := hge i (List.mem_cons_self i rest)
    have hcond : ¬ i < prog := Nat.not_lt.mpr hip
    rw [advanceOptLoop, if_neg (by simp [hcond])]
    congr 1
    exact ih i (fun x hx => Nat.le_of_lt (hlt x hx)) hrest

/-- The restarting optimizer loop over a strictly increasing index list
executes exactly the indices that are at least the recorded value `k`. -/
theorem advanceOptLoop_restart_filter (k : Nat) (active : List Nat)
    (hs : active.Pairwise (· < ·)) :
    advanceOptLoop true k active = active.filter (fun i => decide (k ≤ i)) := by
  induction active with
  | nil => rfl
  | cons i rest ih =>
    obtain ⟨hlt, hrest⟩ := List.pairwise_cons.mp hs
    by_cases hik : i < k
    · have hkeep : (decide (k ≤ i)) = false := by
        simp [Nat.not_le.mpr hik]
      rw [advanceOptLoop, if_pos (by simp [hik]), List.filter_cons, hkeep]
      simpa using ih hrest
    · have hki : k ≤ i := Nat.not_lt.mp hik
      rw [advanceOptLoop, if_neg (by simp [hik]), List.filter_cons]
      simp only [hki, decide_True, if_pos]
      rw [advanceOptLoop_no_skip i rest (fun x hx => Nat.le_of_lt (hlt x hx)) hrest]
      rw [List.filter_eq_self.mpr]
      intro x hx
      exact decide_eq_true (Nat.le_trans hki (Nat.le_of_lt (hlt x hx)))

/-- In a strictly increasing list that contains `k`, the first index at least
`k` is `k` itself. -/
theorem filter_ge_head_of_mem (k : Nat) (active : List Nat)
    (hs : active.Pairwise (· < ·)) (hmem : k ∈ active) :
    (active.filter (fun i => decide (k ≤ i))).head? = some k := by
  induction active with
  | nil => cases hmem
  | cons i rest ih =>
    obtain ⟨hlt, hrest⟩ := List.pairwise_cons.mp hs
    rcases List.mem_cons.mp hmem with hk | hk
    · subst hk
      simp [List.filter_cons]
    · have hik : i < k := hlt k hk
      have : (decide (k ≤ i)) = false := by simp [Nat.not_le.mpr hik]
      rw [List.filter_cons, this]
      simpa using ih hrest hk

/-- C2: when the loop is restarting with recorded progress `optimizer_idx = k`
and the active optimizer indices are strictly increasing (as
`get_active_optimizers` produces them), the optimizer loop of `advance`
executes exactly the active indices `≥ k` — every active index strictly below
`k` is skipped — and when `k` itself is active, execution resumes at `k`
(index `k` is re-run, not skipped). -/
theorem claim_C2_restart_resume (k : Nat) (active : List Nat)
    (hs : active.Pairwise (· < ·)) :
    advanceOptLoop true k active = active.filter (fun i => decide (k ≤ i)) ∧
    (k ∈ active → (advanceOptLoop true k active).head? = some k) := by
  refine ⟨advanceOptLoop_restart_filter k active hs, fun hmem => ?_⟩
  rw [advanceOptLoop_restart_filter k active hs]
  exact filter_ge_head_of_mem k active hs hmem

/-- Witness for C2: restarting at recorded index 1 over active indices
`[0, 1, 2]` — index 0 is skipped and execution resumes at 1, running
`[1, 2]`. -/
theorem claim_C2_restart_resume_witness :
    advanceOptLoop true 1 [0, 1, 2] = [1, 2] ∧
    (advanceOptLoop true 1 [0, 1, 2]).head? = some 1 := by
  have h := claim_C2_restart_resume 1 [0, 1, 2] (by decide)
  exact ⟨by rw [h.1]; rfl, h.2 (by decide)⟩

/-! ## C1: frequency-based optimizer selection -/

theorem cumsumFrom_length (s : Nat) (l : List Nat) :
    (cumsumFrom s l).length = l.length := by
  induction l generalizing s with
  | nil => rfl
  | cons x xs ih => simp [cumsumFrom, ih]

theorem cumsum_length (l : List Nat) : (cumsum l).length = l.length :=
  cumsumFrom_length 0 l

theorem cumsumFrom_getLastD (l : List Nat) (hne : l ≠ []) (s d : Nat) :
    (cumsumFrom s l).getLastD d = s + l.sum := by
  induction l generalizing s d with
  | nil => cases hne rfl
  | cons x xs ih =>
    cases xs with
    | nil => simp [cumsumFrom]
    | cons y ys =>
      rw [cumsumFrom, List.getLastD_cons, ih (by simp) (s + x) (s + x)]
      simp [List.sum_cons]
      omega

theorem cumsum_getLastD (l : List Nat) (hne : l ≠ []) :
    (cumsum l).getLastD 0 = l.sum := by
  rw [cumsum, cumsumFrom_getLastD l hne 0 0, Nat.zero_add]

theorem getD_irrel {α : Type} (l : List α) (i : Nat) (h : i < l.length) (d d' : α) :
    l.getD i d = l.getD i d' := by
  induction l generalizing i with
  | nil => simp at h
  | cons x xs ih =>
    cases i with
    | zero => rfl
    | succ j =>
      simp only [List.getD_cons_succ]
      exact ih j (by simpa using Nat.lt_of_succ_lt_succ h)

theorem getLastD_eq_getD {α : Type} (l : List α) (hne : l ≠ []) :
    ∀ d, l.getLastD d = l.getD (l.length - 1) d := by
  induction l with
  | nil => cases hne rfl
  | cons x xs ih =>
    intro d
    cases xs with
    | nil => rfl
    | cons y ys =>
      rw [List.getLastD_cons, ih (by simp) x,
        getD_irrel (y :: ys) ((y :: ys).length - 1) (by simp) x d]
      have hlen : (x :: y :: ys).length - 1 = ys.length + 1 := by simp
      rw [hlen]
      simp [List.getD_cons_succ]

theorem getD_map_bool (f : Nat → Bool) (l : List Nat) (i : Nat) (h : i < l.length) :
    (l.map f).getD i false = f (l.getD i 0) := by
  induction l generalizing i with
  | nil => simp at h
  | cons x xs ih =>
    cases i with
    | zero => rfl
    | succ j =>
      simp only [List.map_cons, List.getD_cons_succ]
      exact ih j (by simpa using Nat.lt_of_succ_lt_succ h)

theorem findFirstTrue_ne_none (l : List Bool) (i : Nat) (hi : i < l.length)
    (ht : l.getD i false = true) : findFirstTrue l ≠ none := by
  induction l generalizing i with
  | nil => simp at hi
  | cons b rest ih =>
    cases b with
    | true => simp [findFirstTrue]
    | false =>
      cases i with
      | zero => simp at ht
      | succ j =>
        have hrec := ih j (by simpa using Nat.lt_of_succ_lt_succ hi)
          (by simpa [List.getD_cons_succ] using ht)
        simp only [findFirstTrue, Bool.false_eq_true, if_false, ne_eq,
          Option.map_eq_none']
        exact hrec

theorem findFirstTrue_some_spec (l : List Bool) (i : Nat)
    (h : findFirstTrue l = some i) :
    i < l.length ∧ l.getD i false = true ∧ ∀ j < i, l.getD j false = false := by
  induction l generalizing i with
  | nil => cases h
  | cons b rest ih =>
    cases b with
    | true =>
      have h0 : (some 0 : Option Nat) = some i := by
        rw [show findFirstTrue (true :: rest) = some 0 from rfl] at h
        exact h
      injection h0 with h0
      subst h0
      exact ⟨Nat.succ_pos _, rfl, fun j hj => absurd hj (Nat.not_lt_zero j)⟩
    | false =>
      simp only [findFirstTrue, Bool.false_eq_true, if_false,
        Option.map_eq_some'] at h
      obtain ⟨i', hi', hadd⟩ := h
      subst hadd
      obtain ⟨hlen, hget, hprev⟩ := ih i' hi'
      refine ⟨Nat.succ_lt_succ hlen, hget, ?_⟩
      intro j hj
      cases j with
      | zero => rfl
      | succ j' =>
        simpa [List.getD_cons_succ] using hprev j' (Nat.lt_of_succ_lt_succ hj)

theorem list_sum_pos (l : List Nat) (hne : l ≠ []) (hpos : ∀ f ∈ l, 0 < f) :
    0 < l.sum := by
  cases l with
  | nil => cases hne rfl
  | cons x xs =>
    have hx : 0 < x := hpos x (List.mem_cons_self x xs)
    simp only [List.sum_cons]
    omega

/-- C1: with frequencies configured (non-empty, positive, no more frequencies
than optimizers), `get_active_optimizers(b)` returns exactly one
`(index, optimizer)` pair: with `period = cumsum[last]` and
`position = b % period`, the chosen index is the smallest `i` with
`cumsum[i] > position`, and the optimizer is the one at that index.  In
particular for frequencies `[2, 1]` the active index over `b = 0 .. 5` is
`[0, 0, 1, 0, 0, 1]`. -/
theorem claim_C1_frequency_selection (t : TrainerCfg) (b : Nat)
    (hne : t.optimizer_frequencies ≠ [])
    (hpos : ∀ f ∈ t.optimizer_frequencies, 0 < f)
    (hlen : t.optimizer_frequencies.length ≤ t.optimizers.length) :
    (∃ i opt,
      get_active_optimizers t (some b) = some [(i, opt)] ∧
      t.optimizers.get? i = some opt ∧
      b % (cumsum t.optimizer_frequencies).getLastD 0 <
        (cumsum t.optimizer_frequencies).getD i 0 ∧
      ∀ j < i, (cumsum t.optimizer_frequencies).getD j 0 ≤
        b % (cumsum t.optimizer_frequencies).getLastD 0) ∧
    activeIdxSeq cfgFreq 6 = [some 0, some 0, some 1, some 0, some 0, some 1] := by
  refine ⟨?_, by decide⟩
  have hperiod : (cumsum t.optimizer_frequencies).getLastD 0 =
      t.optimizer_frequencies.sum := cumsum_getLastD _ hne
  have hpsum : 0 < t.optimizer_frequencies.sum := list_sum_pos _ hne hpos
  have hper0 : (cumsum t.optimizer_frequencies).getLastD 0 ≠ 0 := by omega
  have hcslen : (cumsum t.optimizer_frequencies).length =
      t.optimizer_frequencies.length := cumsum_length _
  have hcsne : cumsum t.optimizer_frequencies ≠ [] := by
    intro hnil
    rw [hnil] at hcslen
    exact hne (List.length_eq_zero.mp hcslen.symm)
  have hcspos : 0 < (cumsum t.optimizer_frequencies).length := by
    rw [hcslen]
    exact List.length_pos.mpr hne
  have hposlt : b % (cumsum t.optimizer_frequencies).getLastD 0 <
      (cumsum t.optimizer_frequencies).getLastD 0 :=
    Nat.mod_lt b (Nat.pos_of_ne_zero hper0)
  have hm : (cumsum t.optimizer_frequencies).length - 1 <
      (cumsum t.optimizer_frequencies).length := by omega
  have hlastD : (cumsum t.optimizer_frequencies).getD
      ((cumsum t.optimizer_frequencies).length - 1) 0 =
      (cumsum t.optimizer_frequencies).getLastD 0 :=
    (getLastD_eq_getD _ hcsne 0).symm
  have hblget : ((cumsum t.optimizer_frequencies).map
      (fun c => decide (b % (cumsum t.optimizer_frequencies).getLastD 0 < c))).getD
      ((cumsum t.optimizer_frequencies).length - 1) false = true := by
    rw [getD_map_bool _ _ _ hm, hlastD]
    exact decide_eq_true hposlt
  have hbllen : ((cumsum t.optimizer_frequencies).map
      (fun c => decide (b % (cumsum t.optimizer_frequencies).getLastD 0 < c))).length =
      (cumsum t.optimizer_frequencies).length := List.length_map _ _
  have hffne := findFirstTrue_ne_none _ ((cumsum t.optimizer_frequencies).length - 1)
    (by rw [hbllen]; exact hm) hblget
  obtain ⟨i, hfi⟩ := Option.ne_none_iff_exists'.mp hffne
  obtain ⟨hilen, hitrue, hiprev⟩ := findFirstTrue_some_spec _ i hfi
  rw [hbllen, hcslen] at hilen
  have hiopt : i < t.optimizers.length := Nat.lt_of_lt_of_le hilen hlen
  have hgetopt : t.optimizers.get? i = some (t.optimizers.get ⟨i, hiopt⟩) :=
    List.get?_eq_get hiopt
  have hargmax : npArgmaxBool ((cumsum t.optimizer_frequencies).map
      (fun c => decide (b % (cumsum t.optimizer_frequencies).getLastD 0 < c))) = i := by
    rw [npArgmaxBool, hfi]
    rfl
  refine ⟨i, t.optimizers.get ⟨i, hiopt⟩, ?_, hgetopt, ?_, ?_⟩
  · rw [get_active_optimizers]
    have hie : t.optimizer_frequencies.isEmpty = false := by
      cases hf : t.optimizer_frequencies with
      | nil => exact absurd hf hne
      | cons a l => rfl
    rw [if_neg (by simp [hie])]
    simp only [hargmax, if_neg hper0, hgetopt]
  · have hi' : i < (cumsum t.optimizer_frequencies).length := by
      rw [hcslen]; exact hilen
    have := getD_map_bool
      (fun c => decide (b % (cumsum t.optimizer_frequencies).getLastD 0 < c))
      (cumsum t.optimizer_frequencies) i hi'
    rw [this] at hitrue
    exact of_decide_eq_true hitrue
  · intro j hj
    have hj' : j < (cumsum t.optimizer_frequencies).length := by
      rw [hcslen]
      exact Nat.lt_of_lt_of_le (Nat.lt_of_lt_of_le hj (Nat.le_of_lt hilen)) (le_refl _)
    have hfalse := hiprev j hj
    have := getD_map_bool
      (fun c => decide (b % (cumsum t.optimizer_frequencies).getLastD 0 < c))
      (cumsum t.optimizer_frequencies) j hj'
    rw [this] at hfalse
    exact Nat.le_of_not_lt (of_decide_eq_false hfalse)

/-- Witness for C1: frequencies `[2, 1]` at batch index 4 — period 3,
position 1, selected index 0; and the demonstration sequence over
`b = 0 .. 5`. -/
theorem claim_C1_frequency_selection_witness :
    (∃ i opt,
      get_active_optimizers cfgFreq (some 4) = some [(i, opt)] ∧
      cfgFreq.optimizers.get? i = some opt ∧
      4 % (cumsum cfgFreq.optimizer_frequencies).getLastD 0 <
        (cumsum cfgFreq.optimizer_frequencies).getD i 0 ∧
      ∀ j < i, (cumsum cfgFreq.optimizer_frequencies).getD j 0 ≤
        4 % (cumsum cfgFreq.optimizer_frequencies).getLastD 0) ∧
    activeIdxSeq cfgFreq 6 = [some 0, some 0, some 1, some 0, some 0, some 1] :=
  claim_C1_frequency_selection cfgFreq 4 (by decide) (by decide) (by decide)

end TrainingBatchLoop
